import Mathlib

/-
Verification of the entity-resolution engine in src/objects/manager.py
(ObjectManager): object_search and the query helpers it dispatches to.

The embedding models the database as a list of entities in row order.
Django queryset filters become list filters; Python exceptions that can
escape object_search become an explicit error type.  Helpers that live
outside the file under verification (utils.string_partial_matching, the
settings-selected multimatch parser, TypedObjectManager.dbref and
dbref_search) are modelled from the specification and marked as such.
-/

/-- An entity row of the object store: numeric id (primary key / dbref),
primary name (db_key), alias strings (the related Alias rows), typeclass
path (db_typeclass_path) and dynamic attributes (ObjAttribute key/value
pairs). -/
structure Entity where
  id : Nat
  key : String
  aliases : List String
  typeclass_path : String
  attrs : List (String × String)
deriving DecidableEq, Repr

/-- A value appearing in a caller-supplied candidate list.  Python lets any
value appear there: a falsy value (None and the like), an object carrying a
dbobj handle, or a truthy value with no dbobj attribute. -/
inductive Cand where
  | nil
  | obj (e : Entity)
  | bad
deriving DecidableEq, Repr

/-- The entity a candidate value resolves to, when it resolves at all. -/
def Cand.entity? : Cand → Option Entity
  | .obj e => some e
  | _ => none

/-- A value accepted for the typeclass argument: a path string or a
class object (callable). -/
inductive TypeArg where
  | str (s : String)
  | cls (path : String)
deriving DecidableEq, Repr

/-- Python exceptions that can escape object_search in this model. -/
inductive PyError where
  | typeError
  | attributeError
deriving DecidableEq, Repr

deriving instance DecidableEq for Except

/-- Lowercased character content of a string. -/
def lowerChars (s : String) : List Char := s.toList.map Char.toLower

/-- Case-insensitive string equality (the iexact lookup). -/
def lowerEq (a b : String) : Bool := lowerChars a == lowerChars b

/-- Character-list prefix test. -/
def isPrefixL : List Char → List Char → Bool
  | [], _ => true
  | _ :: _, [] => false
  | p :: ps, c :: cs => p == c && isPrefixL ps cs

/-- Case-insensitive prefix test (the istartswith lookup): does s start
with pre. -/
def istartsWith (s pre : String) : Bool := isPrefixL (lowerChars pre) (lowerChars s)

/-- Python str.lstrip with a character set: drop leading characters drawn
from the set. -/
def pyLstrip (cs : List Char) (s : String) : String :=
  ⟨s.toList.dropWhile (fun c => cs.contains c)⟩

/-- The truthiness of a candidates value: None and the empty list are falsy. -/
def candsTruthy : Option (List Entity) → Bool
  | none => false
  | some cs => !cs.isEmpty

/-- The truthiness of the attribute_name argument: None and the empty
string are falsy. -/
def attrTruthy : Option String → Bool
  | none => false
  | some s => s ≠ ""

/-- The candidate restriction `candidates and Q(pk__in=...) or Q()`:
with a truthy candidate list, keep rows whose pk appears among the
candidate ids; otherwise no restriction. -/
def candQ (cands : Option (List Entity)) (e : Entity) : Bool :=
  match cands with
  | none => true
  | some cs => if cs.isEmpty then true else cs.any (fun c => c.id == e.id)

/-- The typeclass restriction `typeclasses and Q(db_typeclass_path__in=...)
or Q()`. -/
def typeQ (tcs : Option (List String)) (e : Entity) : Bool :=
  match tcs with
  | none => true
  | some ts => if ts.isEmpty then true else ts.contains e.typeclass_path

/-- Worker for tokens: split a character list on runs of spaces, an
accumulator holding the current token reversed. -/
def tokensAux : List Char → List Char → List String
  | [], acc => if acc.isEmpty then [] else [⟨acc.reverse⟩]
  | c :: cs, acc =>
    if c == ' ' then
      if acc.isEmpty then tokensAux cs []
      else (⟨acc.reverse⟩ : String) :: tokensAux cs []
    else tokensAux cs (c :: acc)

/-- Modelled from the spec: whitespace tokenization used by the partial
string matcher; runs of spaces produce no empty tokens. -/
def tokens (s : String) : List String := tokensAux s.toList []

/-- Modelled from the spec: a label matches when every query token is a
case-insensitive prefix of some label token, paired greedily left to right,
each label token used at most once. -/
def tokensPrefMatch : List String → List String → Bool
  | [], _ => true
  | _ :: _, [] => false
  | q :: qs, l :: ls =>
    if isPrefixL (lowerChars q) (lowerChars l) then tokensPrefMatch qs ls
    else tokensPrefMatch (q :: qs) ls

/-- Index-accumulating worker for the partial string matcher. -/
def spmAux (qts : List String) : List String → Nat → List Nat
  | [], _ => []
  | l :: ls, i =>
    if tokensPrefMatch qts (tokens l) then i :: spmAux qts ls (i + 1)
    else spmAux qts ls (i + 1)

/-- Modelled from the spec: utils.string_partial_matching with ret_index
set; returns the indices of all labels matched by the query, and an empty
query matches nothing. -/
def string_part_matching (labels : List String) (query : String) : List Nat :=
  if (tokens query).isEmpty then [] else spmAux (tokens query) labels 0

/-- Keep the elements of a list whose position appears in an index list
(the comprehension over enumerate filtered by index membership). -/
def pickIdxAux {α : Type} : List α → Nat → List Nat → List α
  | [], _, _ => []
  | x :: xs, i, idx =>
    if idx.contains i then x :: pickIdxAux xs (i + 1) idx
    else pickIdxAux xs (i + 1) idx

/-- Selection of list entries by an index set. -/
def pickIdx {α : Type} (l : List α) (idx : List Nat) : List α :=
  pickIdxAux l 0 idx

/-- The number denoted by a digit character list, most significant first. -/
def natOfDigits (cs : List Char) : Nat :=
  cs.foldl (fun acc c => acc * 10 + (c.toNat - 48)) 0

/-- Modelled from the spec: the reference parser (TypedObjectManager.dbref
as the spec describes it): a sigil-prefixed non-negative integer occupying
the full token; anything else parses to none. -/
def parse_reference (s : String) : Option Nat :=
  match s.toList with
  | '#' :: rest =>
    if !rest.isEmpty && rest.all Char.isDigit then some (natOfDigits rest)
    else none
  | _ => none

/-- Modelled from the spec: the settings-selected multimatch directive
parser (a leading positive integer followed by a dash); the user-facing
1-based ordinal is returned converted to the 0-based index used when
indexing into the match list. -/
def parse_multimatch (s : String) : Option Nat × String :=
  let cs := s.toList
  let pre := cs.takeWhile Char.isDigit
  if pre.isEmpty then (none, s)
  else
    let n := natOfDigits pre
    if n ≥ 1 then
      match cs.drop pre.length with
      | '-' :: r => (some (n - 1), ⟨r⟩)
      | _ => (none, s)
    else (none, s)

/-- Modelled from the spec: the by-id lookup behind dbref_search; returns
the stored entity with the given reference number, if any. -/
def find_by_id (store : List Entity) (n : Nat) : Option Entity :=
  store.find? (fun e => e.id == n)

/-- Worker for dedupById: drop rows whose id was already seen. -/
def dedupByIdAux : List Entity → List Nat → List Entity
  | [], _ => []
  | e :: rest, seen =>
    if seen.contains e.id then dedupByIdAux rest seen
    else e :: dedupByIdAux rest (e.id :: seen)

/-- Remove later rows carrying an id already seen (the .distinct() on the
exact key-or-alias queryset). -/
def dedupById (l : List Entity) : List Entity := dedupByIdAux l []

/-- get_objs_with_attr_value: rows whose dynamic attribute table holds the
key/value pair, under the candidate and typeclass restrictions. -/
def get_objs_with_attr_value (attribute_name attribute_value : String)
    (candidates : Option (List Entity)) (typeclasses : Option (List String))
    (store : List Entity) : List Entity :=
  store.filter (fun e => candQ candidates e && typeQ typeclasses e &&
    e.attrs.contains (attribute_name, attribute_value))

/-- The fixed schema fields of the object row (ObjectDB). -/
def objectdbFields : List String :=
  ["db_key", "db_typeclass_path", "db_location", "db_home", "db_destination",
   "db_player", "db_sessid", "db_lock_storage", "db_permissions",
   "db_cmdset_storage", "db_date_created"]

/-- The value a schema field carries on a row, for the fields this
embedding tracks; fields it does not track compare equal to nothing. -/
def fieldValue (e : Entity) (field : String) : Option String :=
  if field == "db_key" then some e.key
  else if field == "db_typeclass_path" then some e.typeclass_path
  else none

/-- A field-name filter as Django resolves it: a FieldError (modelled as
.error) when the name is not a schema field, otherwise the rows whose
field equals the value, under an extra predicate. -/
def filter_by_field (field : String) (value : String) (pred : Entity → Bool)
    (store : List Entity) : Except Unit (List Entity) :=
  if objectdbFields.contains field then
    .ok (store.filter (fun e => pred e && fieldValue e field == some value))
  else .error ()

/-- get_objs_with_db_property_value.  The source computes a db_-prefixed
field name from the argument, but the Q object it then builds is
`Q(property_name=property_value)`, whose keyword is the literal name
"property_name", not the computed one; the filter call raises a FieldError
caught by the surrounding try, which returns the empty list. -/
def get_objs_with_db_property_value (property_name property_value : String)
    (candidates : Option (List Entity)) (typeclasses : Option (List String))
    (store : List Entity) : List Entity :=
  let _fname := "db_" ++ pyLstrip ['d', 'b', '_'] property_name
  match filter_by_field "property_name" property_value
      (fun e => candQ candidates e && typeQ typeclasses e) store with
  | .ok ms => ms
  | .error _ => []

/-- The candidate pool the fuzzy branch of get_objs_with_key_or_alias
runs the partial matcher over: the restricted rows when a truthy candidate
list was supplied, else a prefix-prefiltered selection of the whole store. -/
def fuzzyPool (ostring : String) (cands : Option (List Entity))
    (tcs : Option (List String)) (store : List Entity) : List Entity :=
  if candsTruthy cands then
    store.filter (fun e => candQ cands e && typeQ tcs e)
  else
    store.filter (fun e => typeQ tcs e &&
      (istartsWith e.key ostring || e.aliases.any (fun a => istartsWith a ostring)))

/-- The ids the alias table is restricted to in the fuzzy branch: the
supplied candidate ids when candidates are truthy, else the ids of the
self-selected pool. -/
def fuzzyPoolIds (ostring : String) (cands : Option (List Entity))
    (tcs : Option (List String)) (store : List Entity) : List Nat :=
  if candsTruthy cands then (cands.getD []).map (fun e => e.id)
  else (fuzzyPool ostring cands tcs store).map (fun e => e.id)

/-- The alias table rows (alias string, owning row) restricted to owners
with the given ids, in store row order. -/
def aliasRows (cids : List Nat) (store : List Entity) : List (String × Entity) :=
  (store.filter (fun e => cids.contains e.id)).flatMap
    (fun e => e.aliases.map (fun a => (a, e)))

/-- The key-phase index matches of the fuzzy branch: the partial matcher
run over the pool keys. -/
def fuzzyKeyIdx (ostring : String) (cands : Option (List Entity))
    (tcs : Option (List String)) (store : List Entity) : List Nat :=
  string_part_matching ((fuzzyPool ostring cands tcs store).map (fun e => e.key)) ostring

/-- The alias table rows the alias phase of the fuzzy branch works on. -/
def fuzzyRows (ostring : String) (cands : Option (List Entity))
    (tcs : Option (List String)) (store : List Entity) : List (String × Entity) :=
  aliasRows (fuzzyPoolIds ostring cands tcs store) store

/-- The alias-phase index matches of the fuzzy branch: the partial matcher
run over the restricted alias strings. -/
def fuzzyAliasIdx (ostring : String) (cands : Option (List Entity))
    (tcs : Option (List String)) (store : List Entity) : List Nat :=
  string_part_matching ((fuzzyRows ostring cands tcs store).map (fun r => r.1)) ostring

/-- get_objs_with_key_or_alias: exact branch filters on iexact key or
alias (made distinct); fuzzy branch runs the partial matcher over the pool
keys first, and only when no key index matches falls back to the
restricted alias table, whose matching rows yield their owning entities. -/
def get_objs_with_key_or_alias (ostring : String) (exact : Bool)
    (candidates : Option (List Entity)) (typeclasses : Option (List String))
    (store : List Entity) : List Entity :=
  if exact then
    dedupById (store.filter (fun e => candQ candidates e && typeQ typeclasses e &&
      (lowerEq e.key ostring || e.aliases.any (fun a => lowerEq a ostring))))
  else if !(fuzzyKeyIdx ostring candidates typeclasses store).isEmpty then
    pickIdx (fuzzyPool ostring candidates typeclasses store)
      (fuzzyKeyIdx ostring candidates typeclasses store)
  else if !(fuzzyAliasIdx ostring candidates typeclasses store).isEmpty then
    (pickIdx (fuzzyRows ostring candidates typeclasses store)
      (fuzzyAliasIdx ostring candidates typeclasses store)).map (fun r => r.2)
  else []

/-- The inner _searcher helper of object_search: attribute/property search
when attribute_name is a truthy string (the db-property phase first, the
dynamic-attribute phase when it produced nothing), else key/alias search. -/
def searcher (attribute_name : Option String) (ostring : String)
    (cands : Option (List Entity)) (tcs : Option (List String)) (exact : Bool)
    (store : List Entity) : List Entity :=
  if attrTruthy attribute_name then
    if !(get_objs_with_db_property_value (attribute_name.getD "") ostring cands tcs store).isEmpty
    then get_objs_with_db_property_value (attribute_name.getD "") ostring cands tcs store
    else get_objs_with_attr_value (attribute_name.getD "") ostring cands tcs store
  else
    get_objs_with_key_or_alias ostring exact cands tcs store

/-- The final multimatch-ordinal selection of object_search: on a result
with more than one entry and an extracted ordinal, keep the entry at the
0-based index; an out-of-range index (an IndexError in the source) is
swallowed and the full result kept. -/
def selectOrdinal (mn : Option Nat) (ms : List Entity) : List Entity :=
  if ms.length > 1 then
    match mn with
    | some k =>
      match ms.get? k with
      | some m => [m]
      | none => ms
    | none => ms
  else ms

/-- The exact-then-retry pass structure of object_search after the dbref
step: a first exact search on the untouched string; on no match, strip a
multimatch directive and search again with the caller exactness; finally
the ordinal selection on a multi-match result. -/
def two_pass (ostring : String) (attribute_name : Option String)
    (cands : Option (List Entity)) (tcs : Option (List String)) (exact : Bool)
    (store : List Entity) : List Entity :=
  if (searcher attribute_name ostring cands tcs true store).isEmpty then
    selectOrdinal (parse_multimatch ostring).1
      (searcher attribute_name (parse_multimatch ostring).2 cands tcs exact store)
  else
    selectOrdinal none (searcher attribute_name ostring cands tcs true store)

/-- The list comprehension `[cand.dbobj for cand in make_iter(candidates)
if cand]`: falsy entries are skipped, a truthy entry with no dbobj raises
AttributeError. -/
def dbobjList : List Cand → Except PyError (List Entity)
  | [] => .ok []
  | .nil :: rest => dbobjList rest
  | .bad :: _ => .error .attributeError
  | .obj e :: rest => (dbobjList rest).map (fun l => e :: l)

/-- Candidate preprocessing of object_search.  A falsy candidates value is
left unrestricting (returned as none here; the source keeps the empty list,
which every later use tests only for truthiness). -/
def processCands : Option (List Cand) → Except PyError (Option (List Entity))
  | none => .ok none
  | some cs =>
    if cs.isEmpty then .ok none
    else
      match dbobjList cs with
      | .ok live => .ok (some live)
      | .error e => .error e

/-- Truthiness of the typeclass argument. -/
def typeclassTruthy : Option (List TypeArg) → Bool
  | none => false
  | some ts => !ts.isEmpty

/-- The core of object_search after preprocessing: the dbref gate
`not attribute_name and exact and self.dbref(ostring)` (the reference
lookup of a falsy gate value finds nothing, so a falsy gate falls through,
modelled from the spec), then the two-pass search. -/
def object_search_core (ostring : String) (attribute_name : Option String)
    (cands : Option (List Entity)) (exact : Bool) (store : List Entity) :
    List Entity :=
  match (if !attrTruthy attribute_name && exact then parse_reference ostring
         else none) with
  | some n =>
    match find_by_id store n with
    | some m =>
      if !candsTruthy cands || (cands.getD []).any (fun c => c.id == m.id) then [m]
      else []
    | none => two_pass ostring attribute_name cands none exact store
  | none => two_pass ostring attribute_name cands none exact store

/-- object_search.  The empty string returns nothing at once; a truthy
typeclass argument reaches the normalization loop, whose body item-assigns
into the loop variable (a string or a class object) and always raises
TypeError; candidate preprocessing may raise AttributeError; afterwards no
truthy typeclass restriction can remain, so the core receives none for it. -/
def object_search (ostring : String) (attribute_name : Option String)
    (typeclass : Option (List TypeArg)) (candidates : Option (List Cand))
    (exact : Bool) (store : List Entity) : Except PyError (List Entity) :=
  if ostring = "" then .ok []
  else if typeclassTruthy typeclass then .error .typeError
  else
    match processCands candidates with
    | .error e => .error e
    | .ok cands => .ok (object_search_core ostring attribute_name cands exact store)

/-
Concrete stores used by witnesses and counterexamples.
-/

def sword1 : Entity := ⟨1, "sword1", [], "tc", []⟩

def sword2 : Entity := ⟨2, "sword2", [], "tc", []⟩

def sword3 : Entity := ⟨3, "sword3", [], "tc", []⟩

def swordStore : List Entity := [sword1, sword2, sword3]

def ballEnt : Entity := ⟨1, "ball", [], "tc", []⟩

def hashEnt : Entity := ⟨1, "#2", [], "tc", []⟩

def propEnt : Entity := ⟨1, "foo", [], "tc", []⟩

def colorEnt : Entity := ⟨1, "lamp", [], "tc", [("color", "red")]⟩

def bladeEnt : Entity := ⟨7, "big sword", ["longblade"], "tc", []⟩

/-
Helper lemmas.
-/

theorem db_property_value_nil (pn pv : String) (cands : Option (List Entity))
    (tcs : Option (List String)) (store : List Entity) :
    get_objs_with_db_property_value pn pv cands tcs store = [] := by
  unfold get_objs_with_db_property_value
  have h : filter_by_field "property_name" pv
      (fun e => candQ cands e && typeQ tcs e) store = .error () := by
    have hc : ¬ (objectdbFields.contains "property_name" = true) := by decide
    unfold filter_by_field
    rw [if_neg hc]
  simp [h]

theorem searcher_attr (aname : String) (h : aname ≠ "") (os : String)
    (cands : Option (List Entity)) (tcs : Option (List String)) (ex : Bool)
    (store : List Entity) :
    searcher (some aname) os cands tcs ex store =
      get_objs_with_attr_value aname os cands tcs store := by
  unfold searcher
  have ht : attrTruthy (some aname) = true := by simp [attrTruthy, h]
  simp [ht, db_property_value_nil]

theorem candQ_elim {cs : List Entity} {e : Entity} (hne : cs ≠ [])
    (h : candQ (some cs) e = true) : ∃ c ∈ cs, c.id = e.id := by
  simp only [candQ] at h
  rw [if_neg (by simpa [List.isEmpty_iff] using hne)] at h
  simpa using h

theorem mem_dedupByIdAux {x : Entity} (l : List Entity) (seen : List Nat)
    (h : x ∈ dedupByIdAux l seen) : x ∈ l := by
  induction l generalizing seen with
  | nil => simp [dedupByIdAux] at h
  | cons e rest ih =>
    unfold dedupByIdAux at h
    split at h
    · exact List.mem_cons_of_mem _ (ih _ h)
    · rcases List.mem_cons.mp h with h1 | h2
      · exact h1 ▸ List.mem_cons_self _ _
      · exact List.mem_cons_of_mem _ (ih _ h2)

theorem mem_dedupById {x : Entity} (l : List Entity) (h : x ∈ dedupById l) :
    x ∈ l := mem_dedupByIdAux l [] h

theorem mem_pickIdxAux {α : Type} {x : α} (l : List α) (s : Nat) (idx : List Nat)
    (h : x ∈ pickIdxAux l s idx) : x ∈ l := by
  induction l generalizing s with
  | nil => simp [pickIdxAux] at h
  | cons y rest ih =>
    unfold pickIdxAux at h
    split at h
    · rcases List.mem_cons.mp h with h1 | h2
      · exact h1 ▸ List.mem_cons_self _ _
      · exact List.mem_cons_of_mem _ (ih _ h2)
    · exact List.mem_cons_of_mem _ (ih _ h)

theorem mem_pickIdx {α : Type} {x : α} (l : List α) (idx : List Nat)
    (h : x ∈ pickIdx l idx) : x ∈ l := mem_pickIdxAux l 0 idx h

theorem dbobjList_ok : ∀ (cs : List Cand) (live : List Entity),
    dbobjList cs = .ok live → live = cs.filterMap Cand.entity?
  | [], live, h => by
    simp [dbobjList] at h
    simp [h.symm]
  | .nil :: rest, live, h => by
    simpa [List.filterMap_cons, Cand.entity?] using dbobjList_ok rest live (by simpa [dbobjList] using h)
  | .bad :: rest, live, h => by simp [dbobjList] at h
  | .obj e :: rest, live, h => by
    unfold dbobjList at h
    cases hr : dbobjList rest with
    | ok l2 =>
      rw [hr] at h
      simp [Except.map] at h
      simp [List.filterMap_cons, Cand.entity?, h.symm, dbobjList_ok rest l2 hr]
    | error er => rw [hr] at h; simp [Except.map] at h

theorem attr_value_subset {an av : String} {cs : List Entity}
    {tcs : Option (List String)} {store : List Entity} {x : Entity}
    (hne : cs ≠ []) (hx : x ∈ get_objs_with_attr_value an av (some cs) tcs store) :
    ∃ c ∈ cs, c.id = x.id := by
  unfold get_objs_with_attr_value at hx
  have h2 := (List.mem_filter.mp hx).2
  simp only [Bool.and_eq_true] at h2
  exact candQ_elim hne h2.1.1

theorem candsTruthy_some {cs : List Entity} (hne : cs ≠ []) :
    candsTruthy (some cs) = true := by
  simp [candsTruthy, List.isEmpty_iff, hne]

theorem fuzzyPool_subset {os : String} {cs : List Entity}
    {tcs : Option (List String)} {store : List Entity} {x : Entity}
    (hne : cs ≠ []) (hx : x ∈ fuzzyPool os (some cs) tcs store) :
    ∃ c ∈ cs, c.id = x.id := by
  unfold fuzzyPool at hx
  rw [if_pos (candsTruthy_some hne)] at hx
  have h2 := (List.mem_filter.mp hx).2
  simp only [Bool.and_eq_true] at h2
  exact candQ_elim hne h2.1

theorem aliasRows_owner_subset {cids : List Nat} {store : List Entity}
    {r : String × Entity} (hr : r ∈ aliasRows cids store) :
    r.2 ∈ store ∧ cids.contains r.2.id = true := by
  unfold aliasRows at hr
  rcases List.mem_flatMap.mp hr with ⟨e, he, hre⟩
  rcases List.mem_map.mp hre with ⟨a, _, hae⟩
  have he2 := List.mem_filter.mp he
  subst hae
  exact ⟨he2.1, he2.2⟩

theorem key_or_alias_subset {os : String} {ex : Bool} {cs : List Entity}
    {tcs : Option (List String)} {store : List Entity} {x : Entity}
    (hne : cs ≠ []) (hx : x ∈ get_objs_with_key_or_alias os ex (some cs) tcs store) :
    ∃ c ∈ cs, c.id = x.id := by
  unfold get_objs_with_key_or_alias at hx
  split at hx
  · have h1 := mem_dedupById _ hx
    have h2 := (List.mem_filter.mp h1).2
    simp only [Bool.and_eq_true] at h2
    exact candQ_elim hne h2.1.1
  · split at hx
    · exact fuzzyPool_subset hne (mem_pickIdx _ _ hx)
    · split at hx
      · rcases List.mem_map.mp hx with ⟨r, hr, hrx⟩
        have hro := aliasRows_owner_subset (mem_pickIdx _ _ hr)
        have hc : (fuzzyPoolIds os (some cs) tcs store).contains r.2.id = true := hro.2
        unfold fuzzyPoolIds at hc
        rw [if_pos (candsTruthy_some hne)] at hc
        simp only [Option.getD_some, List.contains_eq_any_beq, List.any_eq_true] at hc
        rcases hc with ⟨i, hi, hieq⟩
        rcases List.mem_map.mp hi with ⟨c, hcmem, hci⟩
        subst hrx
        exact ⟨c, hcmem, by simp at hieq; omega⟩
      · simp at hx

theorem searcher_subset {an : Option String} {os : String} {ex : Bool}
    {cs : List Entity} {tcs : Option (List String)} {store : List Entity}
    {x : Entity} (hne : cs ≠ [])
    (hx : x ∈ searcher an os (some cs) tcs ex store) :
    ∃ c ∈ cs, c.id = x.id := by
  unfold searcher at hx
  split at hx
  · rw [db_property_value_nil] at hx
    simp only [List.isEmpty_nil, Bool.not_true, Bool.false_eq_true, if_false] at hx
    exact attr_value_subset hne hx
  · exact key_or_alias_subset hne hx

theorem selectOrdinal_subset {mn : Option Nat} {ms : List Entity} {x : Entity}
    (hx : x ∈ selectOrdinal mn ms) : x ∈ ms := by
  unfold selectOrdinal at hx
  split at hx
  · split at hx
    · split at hx
      · rcases List.mem_singleton.mp hx with h
        subst h
        exact List.get?_mem (by assumption)
      · exact hx
    · exact hx
  · exact hx

theorem two_pass_subset {os : String} {an : Option String} {ex : Bool}
    {cs : List Entity} {tcs : Option (List String)} {store : List Entity}
    {x : Entity} (hne : cs ≠ [])
    (hx : x ∈ two_pass os an (some cs) tcs ex store) :
    ∃ c ∈ cs, c.id = x.id := by
  unfold two_pass at hx
  split at hx
  · exact searcher_subset hne (selectOrdinal_subset hx)
  · exact searcher_subset hne (selectOrdinal_subset hx)

theorem core_subset {os : String} {an : Option String} {ex : Bool}
    {cs : List Entity} {store : List Entity} {x : Entity} (hne : cs ≠ [])
    (hx : x ∈ object_search_core os an (some cs) ex store) :
    ∃ c ∈ cs, c.id = x.id := by
  unfold object_search_core at hx
  split at hx
  case _ n heq =>
    cases hf : find_by_id store n with
    | some m =>
      rw [hf] at hx
      rw [candsTruthy_some hne] at hx
      simp only [Bool.not_true, Bool.false_or, Option.getD_some] at hx
      split at hx
      case _ hany =>
        rcases List.mem_singleton.mp hx with h
        subst h
        rcases List.any_eq_true.mp hany with ⟨c, hc, hceq⟩
        exact ⟨c, hc, by simpa using hceq⟩
      case _ => simp at hx
    | none =>
      rw [hf] at hx
      exact two_pass_subset hne hx
  case _ => exact two_pass_subset hne hx

/-
Claim theorems.
-/

/-- C1: for every query with a supplied non-empty candidate set (a list
holding at least one value that resolves to an entity), whenever
object_search returns a result, every returned entity belongs (by primary
key) to the supplied candidate set: restriction narrows, never widens, on
every path (reference lookup, exact key/alias, fuzzy key/alias,
attribute/property). -/
theorem c1_candidate_restriction (ostring : String) (an : Option String)
    (tc : Option (List TypeArg)) (csc : List Cand) (ex : Bool)
    (store : List Entity) (res : List Entity)
    (hobj : csc.filterMap Cand.entity? ≠ [])
    (hok : object_search ostring an tc (some csc) ex store = .ok res) :
    ∀ x ∈ res, ∃ c ∈ csc.filterMap Cand.entity?, c.id = x.id := by
  unfold object_search at hok
  by_cases h0 : ostring = ""
  · rw [if_pos h0] at hok
    injection hok with hr
    intro x hx
    rw [← hr] at hx
    simp at hx
  · rw [if_neg h0] at hok
    by_cases ht : typeclassTruthy tc = true
    · rw [if_pos ht] at hok
      simp at hok
    · rw [if_neg ht] at hok
      have hcsne : csc ≠ [] := by
        intro h
        rw [h] at hobj
        simp at hobj
      cases hp : processCands (some csc) with
      | error e =>
        rw [hp] at hok
        simp at hok
      | ok cands =>
        rw [hp] at hok
        simp only [] at hok
        injection hok with hr
        simp only [processCands] at hp
        rw [if_neg (by simpa [List.isEmpty_iff] using hcsne)] at hp
        cases hd : dbobjList csc with
        | error e =>
          rw [hd] at hp
          simp at hp
        | ok live =>
          rw [hd] at hp
          simp only [] at hp
          injection hp with hp2
          have hlive : live = csc.filterMap Cand.entity? := dbobjList_ok csc live hd
          intro x hx
          rw [← hr] at hx
          rw [← hp2] at hx
          have hlne : live ≠ [] := by
            rw [hlive]
            exact hobj
          rcases core_subset hlne hx with ⟨c, hc, hcid⟩
          exact ⟨c, by rw [← hlive]; exact hc, hcid⟩

/-- Closed witness for C1 at a concrete store and candidate list. -/
theorem c1_witness :
    ([Cand.obj sword1].filterMap Cand.entity? ≠ []) ∧
    (∀ x ∈ [sword1], ∃ c ∈ [Cand.obj sword1].filterMap Cand.entity?, c.id = x.id) :=
  ⟨by decide,
   c1_candidate_restriction "sword1" none none [Cand.obj sword1] true swordStore
     [sword1] (by decide) (by decide)⟩

theorem parse_reference_ne_empty {s : String} {n : Nat}
    (h : parse_reference s = some n) : s ≠ "" := by
  intro he
  subst he
  have h0 : parse_reference "" = none := by decide
  rw [h0] at h
  simp at h

theorem dbobjList_map_obj (cs : List Entity) : dbobjList (cs.map Cand.obj) = .ok cs := by
  induction cs with
  | nil => rfl
  | cons e rest ih => simp [dbobjList, ih, Except.map]

theorem object_search_none_cands (raw : String) (an : Option String) (ex : Bool)
    (store : List Entity) (h0 : raw ≠ "") :
    object_search raw an none none ex store =
      .ok (object_search_core raw an none ex store) := by
  unfold object_search
  rw [if_neg h0]
  rfl

theorem object_search_obj_cands (raw : String) (an : Option String)
    (cs : List Entity) (ex : Bool) (store : List Entity) (h0 : raw ≠ "")
    (hne : cs ≠ []) :
    object_search raw an none (some (cs.map Cand.obj)) ex store =
      .ok (object_search_core raw an (some cs) ex store) := by
  unfold object_search
  rw [if_neg h0]
  have hemp : (cs.map Cand.obj).isEmpty = false := by
    simp [List.isEmpty_iff, hne]
  simp only [typeclassTruthy, Bool.false_eq_true, if_false, processCands, hemp,
    dbobjList_map_obj]

theorem core_ref (raw : String) (n : Nat) (e : Entity)
    (cands : Option (List Entity)) (store : List Entity)
    (hparse : parse_reference raw = some n)
    (hfind : find_by_id store n = some e) :
    object_search_core raw none cands true store =
      (if !candsTruthy cands || (cands.getD []).any (fun c => c.id == e.id)
       then [e] else []) := by
  unfold object_search_core
  simp only [attrTruthy, Bool.not_false, Bool.and_self, if_true, hparse, hfind]

/-- C2 (amended): the reference branch of object_search is gated on
exact being true and attribute_name being falsy; when it is taken and the
referenced entity exists, the result is decided by the reference lookup
alone (the singleton, or empty under an excluding truthy candidate
restriction), independent of every key, alias and attribute in the store:
it short-circuits the name/alias/attribute search. -/
theorem c2_reference_priority (raw : String) (n : Nat) (e : Entity)
    (cands : Option (List Entity)) (store : List Entity)
    (hparse : parse_reference raw = some n)
    (hfind : find_by_id store n = some e) :
    object_search raw none none (cands.map (fun l => l.map Cand.obj)) true store =
      .ok (if !candsTruthy cands || (cands.getD []).any (fun c => c.id == e.id)
           then [e] else []) := by
  have h0 := parse_reference_ne_empty hparse
  match cands with
  | none =>
    simp only [Option.map]
    rw [object_search_none_cands raw none true store h0]
    rw [core_ref raw n e none store hparse hfind]
  | some [] =>
    have hred : object_search raw none none (some ([] : List Cand)) true store =
        .ok (object_search_core raw none none true store) := by
      unfold object_search
      rw [if_neg h0]
      rfl
    simp only [Option.map, List.map_nil]
    rw [hred, core_ref raw n e none store hparse hfind]
    simp [candsTruthy]
  | some (c0 :: rest) =>
    simp only [Option.map]
    rw [object_search_obj_cands raw none (c0 :: rest) true store h0 (by simp)]
    rw [core_ref raw n e (some (c0 :: rest)) store hparse hfind]

/-- Closed witness for C2 (amended) at a concrete store. -/
theorem c2_witness :
    parse_reference "#2" = some 2 ∧
    object_search "#2" none none none true swordStore = .ok [sword2] := by
  refine ⟨by decide, ?_⟩
  have h := c2_reference_priority "#2" 2 sword2 none swordStore (by decide) (by decide)
  simpa [candsTruthy] using h

/-- C2 counterexample: the claim as stated fails.  With exact false (second
conjunct versus first) the well-formed reference "#1" is not looked up and
the search returns nothing although entity 1 exists; with a truthy
attribute name (third conjunct) the reference is again ignored; and when
the referenced id does not exist (fourth conjunct) the reference step does
not short-circuit: the name search still runs and matches a key "#2". -/
theorem c2_counterexample :
    object_search "#1" none none none true [ballEnt] = .ok [ballEnt] ∧
    object_search "#1" none none none false [ballEnt] = .ok [] ∧
    object_search "#1" (some "color") none none true [ballEnt] = .ok [] ∧
    object_search "#2" none none none true [hashEnt] = .ok [hashEnt] ∧
    parse_reference "#1" = some 1 ∧ find_by_id [ballEnt] 1 = some ballEnt ∧
    parse_reference "#2" = some 2 ∧ find_by_id [hashEnt] 2 = none := by
  decide

/-- C8: for a stored entity with reference number n, an exact search for
the sigil-prefixed reference returns exactly that entity when no truthy
candidate restriction excludes it, and the empty list when a supplied
non-empty candidate restriction excludes it. -/
theorem c8_dbref_exact (raw : String) (n : Nat) (e : Entity) (store : List Entity)
    (hparse : parse_reference raw = some n)
    (hfind : find_by_id store n = some e) :
    (object_search raw none none none true store = .ok [e]) ∧
    (∀ cs : List Entity, e ∈ cs →
       object_search raw none none (some (cs.map Cand.obj)) true store = .ok [e]) ∧
    (∀ cs : List Entity, cs ≠ [] → (∀ c ∈ cs, c.id ≠ e.id) →
       object_search raw none none (some (cs.map Cand.obj)) true store = .ok []) := by
  have h0 := parse_reference_ne_empty hparse
  refine ⟨?_, ?_, ?_⟩
  · rw [object_search_none_cands raw none true store h0]
    rw [core_ref raw n e none store hparse hfind]
    simp [candsTruthy]
  · intro cs hcs
    have hne : cs ≠ [] := by
      rintro rfl
      simp at hcs
    rw [object_search_obj_cands raw none cs true store h0 hne]
    rw [core_ref raw n e (some cs) store hparse hfind]
    have hany : cs.any (fun c => c.id == e.id) = true :=
      List.any_eq_true.mpr ⟨e, hcs, by simp⟩
    simp [hany]
  · intro cs hne hnid
    rw [object_search_obj_cands raw none cs true store h0 hne]
    rw [core_ref raw n e (some cs) store hparse hfind]
    have hany : cs.any (fun c => c.id == e.id) = false :=
      Bool.eq_false_iff.mpr (fun hh => by
        rcases List.any_eq_true.mp hh with ⟨c, hc, hcq⟩
        exact hnid c hc (by simpa using hcq))
    simp [candsTruthy_some hne, hany]

/-- Closed witness for C8 at a concrete store, in both the unrestricted
and the excluding-restriction cases. -/
theorem c8_witness :
    object_search "#3" none none none true swordStore = .ok [sword3] ∧
    object_search "#3" none none (some ([sword1].map Cand.obj)) true swordStore = .ok [] := by
  have h := c8_dbref_exact "#3" 3 sword3 swordStore (by decide) (by decide)
  exact ⟨h.1, h.2.2 [sword1] (by decide) (by decide)⟩

/-- C4 (code defect): object_search raises instead of returning.  Any
truthy typeclass argument reaches the normalization loop, whose body
item-assigns into the loop variable (a string or class object) and raises
TypeError; a truthy candidate entry that does not resolve to an entity
raises AttributeError at the dbobj access instead of being silently
dropped. -/
theorem c4_exceptions_escape :
    object_search "sword" none (some [TypeArg.str "src.objects.object.Object"])
      none true swordStore = .error .typeError ∧
    object_search "sword" none none (some [Cand.obj sword1, Cand.bad]) true
      swordStore = .error .attributeError := by
  decide

theorem filter_property_name_error (v : String) (pred : Entity → Bool)
    (store : List Entity) :
    filter_by_field "property_name" v pred store = .error () := by
  have hc : ¬ (objectdbFields.contains "property_name" = true) := by decide
  unfold filter_by_field
  rw [if_neg hc]

/-- C10: get_objs_with_db_property_value returns the empty list for every
property name, value, candidate list and typeclass restriction (its filter
is built on the literal field name "property_name"), so the property phase
of the attribute search never matches and every non-empty attribute-search
result comes from the dynamic-attribute phase. -/
theorem c10_property_phase_dead (pn pv : String) (cands : Option (List Entity))
    (tcs : Option (List String)) (store : List Entity) :
    get_objs_with_db_property_value pn pv cands tcs store = [] ∧
    (∀ aname : String, aname ≠ "" → ∀ (os : String) (ex : Bool),
       searcher (some aname) os cands tcs ex store =
         get_objs_with_attr_value aname os cands tcs store) :=
  ⟨db_property_value_nil pn pv cands tcs store,
   fun aname h os ex => searcher_attr aname h os cands tcs ex store⟩

/-- Closed witness for C10 at a concrete store and attribute. -/
theorem c10_witness :
    get_objs_with_db_property_value "key" "foo" none none [propEnt] = [] ∧
    searcher (some "k") "v" none none true [propEnt] =
      get_objs_with_attr_value "k" "v" none none [propEnt] :=
  ⟨(c10_property_phase_dead "key" "foo" none none [propEnt]).1,
   (c10_property_phase_dead "key" "foo" none none [propEnt]).2 "k" (by decide) "v" true⟩

/-- C3 counterexample: "key" names a schema property (db_key) and the
stored entity has key "foo", so by the claim the property phase would
exact-match it and the attribute search would return the entity without
falling through; the code returns nothing from the property phase and the
fall-through to the dynamic-attribute phase happens although the requested
property exists. -/
theorem c3_counterexample :
    propEnt.key = "foo" ∧ objectdbFields.contains "db_key" = true ∧
    get_objs_with_db_property_value "key" "foo" none none [propEnt] = [] ∧
    object_search "foo" (some "key") none none true [propEnt] = .ok [] := by
  decide

/-- C3 (amended): the property phase always raises the no-such-field
condition (its filter names the literal field "property_name", which is
not a schema field), the condition is recovered locally to an empty result
and never surfaced, and the attribute branch falls through to the
dynamic-attribute phase whenever the property phase produced no matches —
which is always, not only when the requested field is missing. -/
theorem c3_property_fallthrough (aname : String) (h : aname ≠ "")
    (os : String) (cands : Option (List Entity)) (tcs : Option (List String))
    (ex : Bool) (store : List Entity) :
    filter_by_field "property_name" os
      (fun e => candQ cands e && typeQ tcs e) store = .error () ∧
    get_objs_with_db_property_value aname os cands tcs store = [] ∧
    searcher (some aname) os cands tcs ex store =
      get_objs_with_attr_value aname os cands tcs store :=
  ⟨filter_property_name_error os _ store,
   db_property_value_nil aname os cands tcs store,
   searcher_attr aname h os cands tcs ex store⟩

/-- Closed witness for C3 (amended) at a concrete store. -/
theorem c3_witness :
    get_objs_with_db_property_value "color" "red" none none [colorEnt] = [] ∧
    searcher (some "color") "red" none none true [colorEnt] =
      get_objs_with_attr_value "color" "red" none none [colorEnt] := by
  have h := c3_property_fallthrough "color" (by decide) "red" none none true [colorEnt]
  exact ⟨h.2.1, h.2.2⟩

theorem selectOrdinal_none (ms : List Entity) : selectOrdinal none ms = ms := by
  unfold selectOrdinal
  split
  · rfl
  · rfl

theorem searcher_none (os : String) (cands : Option (List Entity))
    (tcs : Option (List String)) (ex : Bool) (store : List Entity) :
    searcher none os cands tcs ex store =
      get_objs_with_key_or_alias os ex cands tcs store := rfl

theorem two_pass_first_hit (os : String) (an : Option String)
    (cands : Option (List Entity)) (tcs : Option (List String)) (ex : Bool)
    (store : List Entity) (hne : searcher an os cands tcs true store ≠ []) :
    two_pass os an cands tcs ex store = searcher an os cands tcs true store := by
  unfold two_pass
  rw [if_neg (by simpa [List.isEmpty_iff] using hne)]
  exact selectOrdinal_none _

theorem core_no_ref_exact_false (os : String) (an : Option String)
    (cands : Option (List Entity)) (store : List Entity) :
    object_search_core os an cands false store =
      two_pass os an cands none false store := by
  unfold object_search_core
  simp only [Bool.and_false, Bool.false_eq_true, if_false]

theorem dedupByIdAux_eq_self (l : List Entity) (seen : List Nat)
    (hnd : (l.map (fun e => e.id)).Nodup)
    (hs : ∀ e ∈ l, seen.contains e.id = false) :
    dedupByIdAux l seen = l := by
  induction l generalizing seen with
  | nil => rfl
  | cons e rest ih =>
    unfold dedupByIdAux
    rw [hs e (List.mem_cons_self e rest)]
    simp only [Bool.false_eq_true, if_false]
    have hnd2 : ((e :: rest).map (fun x => x.id)).Nodup := hnd
    rw [List.map_cons, List.nodup_cons] at hnd2
    congr 1
    refine ih _ hnd2.2 ?_
    intro x hx
    have hx1 : (x.id == e.id) = false := by
      have : x.id ≠ e.id := by
        intro hEq
        exact hnd2.1 (hEq ▸ List.mem_map_of_mem (fun y => y.id) hx)
      simpa using this
    have hx2 := hs x (List.mem_cons_of_mem _ hx)
    simp only [List.contains_eq_any_beq, List.any_cons] at hx2 ⊢
    simp [hx1, hx2]

theorem dedupById_eq_self (l : List Entity)
    (hnd : (l.map (fun e => e.id)).Nodup) : dedupById l = l :=
  dedupByIdAux_eq_self l [] hnd (fun _ _ => rfl)

/-- C5: when an entity key equals the query case-insensitively, the entity
is stored and passes the (possibly supplied) candidate restriction, then
object_search with exact false resolves via the exact first pass: the
result equals the exact key-or-alias search on the untouched string and
contains the entity — no directive stripping and no fuzzy matching
contribute. -/
theorem c5_exact_first (ostring : String) (e : Entity) (store : List Entity)
    (cands : Option (List Entity))
    (hnd : (store.map (fun x => x.id)).Nodup)
    (h0 : ostring ≠ "") (hmem : e ∈ store)
    (hkey : lowerEq e.key ostring = true)
    (hc : cands = none ∨ ∃ cs, cands = some cs ∧ e ∈ cs) :
    object_search ostring none none (cands.map (fun l => l.map Cand.obj)) false store =
      .ok (get_objs_with_key_or_alias ostring true cands none store) ∧
    e ∈ get_objs_with_key_or_alias ostring true cands none store := by
  have hcq : candQ cands e = true := by
    rcases hc with rfl | ⟨cs, rfl, hecs⟩
    · rfl
    · simp only [candQ]
      rw [if_neg (by
        intro hh
        rw [List.isEmpty_iff.mp hh] at hecs
        simp at hecs)]
      exact List.any_eq_true.mpr ⟨e, hecs, by simp⟩
  have hpred : (candQ cands e && typeQ none e &&
      (lowerEq e.key ostring || e.aliases.any (fun a => lowerEq a ostring))) = true := by
    simp [hcq, typeQ, hkey]
  have hmf : e ∈ store.filter (fun x => candQ cands x && typeQ none x &&
      (lowerEq x.key ostring || x.aliases.any (fun a => lowerEq a ostring))) :=
    List.mem_filter.mpr ⟨hmem, hpred⟩
  have hddeq : dedupById (store.filter (fun x => candQ cands x && typeQ none x &&
      (lowerEq x.key ostring || x.aliases.any (fun a => lowerEq a ostring)))) =
      store.filter (fun x => candQ cands x && typeQ none x &&
      (lowerEq x.key ostring || x.aliases.any (fun a => lowerEq a ostring))) := by
    apply dedupById_eq_self
    exact List.Nodup.sublist ((List.filter_sublist _).map _) hnd
  have hkoa : get_objs_with_key_or_alias ostring true cands none store =
      store.filter (fun x => candQ cands x && typeQ none x &&
      (lowerEq x.key ostring || x.aliases.any (fun a => lowerEq a ostring))) := by
    unfold get_objs_with_key_or_alias
    rw [if_pos rfl]
    exact hddeq
  have hemem : e ∈ get_objs_with_key_or_alias ostring true cands none store := by
    rw [hkoa]
    exact hmf
  refine ⟨?_, hemem⟩
  have hfirst : searcher none ostring cands none true store ≠ [] := by
    rw [searcher_none]
    intro hh
    rw [hh] at hemem
    simp at hemem
  have hcore : object_search_core ostring none cands false store =
      get_objs_with_key_or_alias ostring true cands none store := by
    rw [core_no_ref_exact_false, two_pass_first_hit _ _ _ _ _ _ hfirst, searcher_none]
  rcases hc with rfl | ⟨cs, rfl, hecs⟩
  · simp only [Option.map]
    rw [object_search_none_cands ostring none false store h0, hcore]
  · have hne : cs ≠ [] := by
      rintro rfl
      simp at hecs
    simp only [Option.map]
    rw [object_search_obj_cands ostring none cs false store h0 hne, hcore]

/-- Closed witness for C5 at a concrete store: the key matches the query
up to case and is found by the exact first pass even with exact false. -/
theorem c5_witness :
    object_search "BALL" none none none false [ballEnt] =
      .ok (get_objs_with_key_or_alias "BALL" true none none [ballEnt]) ∧
    ballEnt ∈ get_objs_with_key_or_alias "BALL" true none none [ballEnt] := by
  have h := c5_exact_first "BALL" ballEnt [ballEnt] none (by decide) (by decide)
    (by decide) (by decide) (Or.inl rfl)
  exact ⟨h.1, h.2⟩

/-- C6: when the exact first pass finds nothing, a multimatch ordinal was
extracted and the second pass yields more than one match, object_search
keeps exactly the entry at the 0-based index derived from the 1-based
user-facing ordinal (the concrete "2-sword" sword scenario is the
witness). -/
theorem c6_ordinal_selection (os rest : String) (an : Option String)
    (cands : Option (List Entity)) (tcs : Option (List String)) (ex : Bool)
    (store : List Entity) (k : Nat) (ms : List Entity) (m : Entity)
    (h1 : searcher an os cands tcs true store = [])
    (h2 : parse_multimatch os = (some k, rest))
    (h3 : searcher an rest cands tcs ex store = ms)
    (h4 : 1 < ms.length) (h5 : ms.get? k = some m) :
    two_pass os an cands tcs ex store = [m] := by
  unfold two_pass
  rw [if_pos (by simp [h1])]
  rw [h2]
  simp only [h3]
  unfold selectOrdinal
  rw [if_pos h4]
  simp only [h5]

/-- Closed witness for C6: with three entities sword1, sword2 and sword3,
query "2-sword" with exact false resolves to exactly sword2. -/
theorem c6_witness :
    object_search "2-sword" none none none false swordStore = .ok [sword2] := by
  have h := c6_ordinal_selection "2-sword" "sword" none none none false swordStore 1
    [sword1, sword2, sword3] sword2 (by decide) (by decide) (by decide)
    (by decide) (by decide)
  rw [object_search_none_cands "2-sword" none false swordStore (by decide),
    core_no_ref_exact_false "2-sword" none none swordStore, h]

/-- C7: when the extracted ordinal is out of bounds for the multi-match
result, the lookup of the indexed entry fails (an IndexError in the
source), the failure is swallowed and the full unfiltered multi-match set
is returned unchanged. -/
theorem c7_ordinal_out_of_bounds (os rest : String) (an : Option String)
    (cands : Option (List Entity)) (tcs : Option (List String)) (ex : Bool)
    (store : List Entity) (k : Nat) (ms : List Entity)
    (h1 : searcher an os cands tcs true store = [])
    (h2 : parse_multimatch os = (some k, rest))
    (h3 : searcher an rest cands tcs ex store = ms)
    (h4 : 1 < ms.length) (h5 : ms.get? k = none) :
    two_pass os an cands tcs ex store = ms := by
  unfold two_pass
  rw [if_pos (by simp [h1])]
  rw [h2]
  simp only [h3]
  unfold selectOrdinal
  rw [if_pos h4]
  simp only [h5]

/-- Closed witness for C7: query "9-sword" against the three sword
entities returns all three unchanged. -/
theorem c7_witness :
    object_search "9-sword" none none none false swordStore =
      .ok [sword1, sword2, sword3] := by
  have h := c7_ordinal_out_of_bounds "9-sword" "sword" none none none false swordStore 8
    [sword1, sword2, sword3] (by decide) (by decide) (by decide)
    (by decide) (by decide)
  rw [object_search_none_cands "9-sword" none false swordStore (by decide),
    core_no_ref_exact_false "9-sword" none none swordStore, h]

theorem spmAux_mem {qts : List String} :
    ∀ (ls : List String) (s i : Nat), i ∈ spmAux qts ls s →
      s ≤ i ∧ ∃ l, ls.get? (i - s) = some l ∧ tokensPrefMatch qts (tokens l) = true
  | [], s, i, h => by simp [spmAux] at h
  | l :: ls, s, i, h => by
    unfold spmAux at h
    split at h
    case isTrue hm =>
      rcases List.mem_cons.mp h with h1 | h2
      · subst h1
        exact ⟨Nat.le_refl _, l, by simp, hm⟩
      · rcases spmAux_mem ls (s + 1) i h2 with ⟨hle, l2, hg, hm2⟩
        refine ⟨Nat.le_of_succ_le hle, l2, ?_, hm2⟩
        have he : i - s = (i - (s + 1)) + 1 := by omega
        rw [he]
        simpa using hg
    case isFalse hm =>
      rcases spmAux_mem ls (s + 1) i h with ⟨hle, l2, hg, hm2⟩
      refine ⟨Nat.le_of_succ_le hle, l2, ?_, hm2⟩
      have he : i - s = (i - (s + 1)) + 1 := by omega
      rw [he]
      simpa using hg

theorem spm_mem {labels : List String} {q : String} {i : Nat}
    (h : i ∈ string_part_matching labels q) :
    ∃ l, labels.get? i = some l ∧ tokensPrefMatch (tokens q) (tokens l) = true := by
  unfold string_part_matching at h
  split at h
  · simp at h
  · rcases spmAux_mem labels 0 i h with ⟨_, l, hg, hm⟩
    exact ⟨l, by simpa using hg, hm⟩

theorem pickIdxAux_mem_get {α : Type} {x : α} :
    ∀ (l : List α) (s : Nat) (idx : List Nat), x ∈ pickIdxAux l s idx →
      ∃ i, idx.contains i = true ∧ s ≤ i ∧ l.get? (i - s) = some x
  | [], s, idx, h => by simp [pickIdxAux] at h
  | y :: ys, s, idx, h => by
    unfold pickIdxAux at h
    split at h
    case isTrue hc =>
      rcases List.mem_cons.mp h with h1 | h2
      · subst h1
        exact ⟨s, hc, Nat.le_refl _, by simp⟩
      · rcases pickIdxAux_mem_get ys (s + 1) idx h2 with ⟨i, hci, hle, hg⟩
        refine ⟨i, hci, Nat.le_of_succ_le hle, ?_⟩
        have he : i - s = (i - (s + 1)) + 1 := by omega
        rw [he]
        simpa using hg
    case isFalse hc =>
      rcases pickIdxAux_mem_get ys (s + 1) idx h with ⟨i, hci, hle, hg⟩
      refine ⟨i, hci, Nat.le_of_succ_le hle, ?_⟩
      have he : i - s = (i - (s + 1)) + 1 := by omega
      rw [he]
      simpa using hg

theorem pickIdx_mem_get {α : Type} {x : α} {l : List α} {idx : List Nat}
    (h : x ∈ pickIdx l idx) : ∃ i, idx.contains i = true ∧ l.get? i = some x := by
  rcases pickIdxAux_mem_get l 0 idx h with ⟨i, hc, _, hg⟩
  exact ⟨i, hc, by simpa using hg⟩

theorem pickIdxAux_ne_nil {α : Type} :
    ∀ (l : List α) (s : Nat) (idx : List Nat) (i : Nat),
      idx.contains i = true → s ≤ i → i - s < l.length → pickIdxAux l s idx ≠ []
  | [], _, _, _, _, _, hlt => by simp at hlt
  | y :: ys, s, idx, i, hc, hle, hlt => by
    unfold pickIdxAux
    split
    · simp
    case isFalse hcs =>
      have hne : i ≠ s := fun hEq => hcs (hEq ▸ hc)
      refine pickIdxAux_ne_nil ys (s + 1) idx i hc (by omega) ?_
      simp only [List.length_cons] at hlt
      omega

theorem pickIdx_ne_nil {α : Type} {l : List α} {idx : List Nat} {i : Nat}
    (hc : idx.contains i = true) (hlt : i < l.length) : pickIdx l idx ≠ [] :=
  pickIdxAux_ne_nil l 0 idx i hc (Nat.zero_le _) (by simpa using hlt)

theorem contains_of_mem_nat {l : List Nat} {i : Nat} (h : i ∈ l) :
    l.contains i = true := by
  rw [List.contains_eq_any_beq]
  exact List.any_eq_true.mpr ⟨i, h, by simp⟩

theorem filter_mem_ids_eq (p : Entity → Bool) (store : List Entity)
    (hnd : (store.map (fun e => e.id)).Nodup) :
    store.filter (fun e => ((store.filter p).map (fun x => x.id)).contains e.id) =
      store.filter p := by
  apply List.filter_congr
  intro e he
  by_cases hp : p e = true
  · rw [hp, List.contains_eq_any_beq]
    exact List.any_eq_true.mpr
      ⟨e.id, List.mem_map_of_mem _ (List.mem_filter.mpr ⟨he, hp⟩), by simp⟩
  · rw [Bool.eq_false_iff.mpr hp]
    apply Bool.eq_false_iff.mpr
    intro hcon
    rw [List.contains_eq_any_beq] at hcon
    rcases List.any_eq_true.mp hcon with ⟨m, hm, hmq⟩
    rcases List.mem_map.mp hm with ⟨x, hxf, hxid⟩
    have hxs := List.mem_filter.mp hxf
    have hxe : x = e := by
      apply List.inj_on_of_nodup_map hnd hxs.1 he
      rw [hxid]
      have := beq_iff_eq.mp hmq
      omega
    exact hp (hxe ▸ hxs.2)

theorem contains_map_id (cs : List Entity) (n : Nat) :
    (cs.map (fun x => x.id)).contains n = cs.any (fun c => c.id == n) := by
  by_cases h : n ∈ cs.map (fun x => x.id)
  · rw [contains_of_mem_nat h]
    rcases List.mem_map.mp h with ⟨c, hc, hcid⟩
    exact (List.any_eq_true.mpr ⟨c, hc, by simp [hcid]⟩).symm
  · have h1 : (cs.map (fun x => x.id)).contains n = false := by
      apply Bool.eq_false_iff.mpr
      intro hcon
      rw [List.contains_eq_any_beq] at hcon
      rcases List.any_eq_true.mp hcon with ⟨m, hm, hmq⟩
      exact h (beq_iff_eq.mp hmq ▸ hm)
    rw [h1]
    symm
    apply Bool.eq_false_iff.mpr
    intro hany
    rcases List.any_eq_true.mp hany with ⟨c, hc, hcq⟩
    exact h (List.mem_map.mpr ⟨c, hc, beq_iff_eq.mp hcq⟩)

theorem alias_pool_eq (os : String) (cands : Option (List Entity))
    (store : List Entity) (hnd : (store.map (fun e => e.id)).Nodup) :
    store.filter (fun e => (fuzzyPoolIds os cands none store).contains e.id) =
      fuzzyPool os cands none store := by
  by_cases hct : candsTruthy cands = true
  · match cands with
    | none => simp [candsTruthy] at hct
    | some cs =>
      have hcne : cs ≠ [] := by
        simpa [candsTruthy, List.isEmpty_iff] using hct
      unfold fuzzyPoolIds fuzzyPool
      rw [if_pos hct, if_pos hct]
      apply List.filter_congr
      intro e _
      simp only [Option.getD_some]
      have h1 : typeQ none e = true := rfl
      rw [h1, Bool.and_true]
      simp only [candQ]
      rw [if_neg (by simpa [List.isEmpty_iff] using hcne)]
      exact contains_map_id cs e.id
  · unfold fuzzyPoolIds fuzzyPool
    rw [if_neg hct, if_neg hct]
    exact filter_mem_ids_eq _ store hnd

theorem mem_of_contains_nat {l : List Nat} {i : Nat} (h : l.contains i = true) :
    i ∈ l := by
  rw [List.contains_eq_any_beq] at h
  rcases List.any_eq_true.mp h with ⟨m, hm, hmq⟩
  rwa [beq_iff_eq.mp hmq]

theorem key_or_alias_fuzzy (ostring : String) (cands : Option (List Entity))
    (tcs : Option (List String)) (store : List Entity) :
    get_objs_with_key_or_alias ostring false cands tcs store =
      (if !(fuzzyKeyIdx ostring cands tcs store).isEmpty then
        pickIdx (fuzzyPool ostring cands tcs store) (fuzzyKeyIdx ostring cands tcs store)
      else if !(fuzzyAliasIdx ostring cands tcs store).isEmpty then
        (pickIdx (fuzzyRows ostring cands tcs store)
          (fuzzyAliasIdx ostring cands tcs store)).map (fun r => r.2)
      else []) := rfl

/-- C9: in the fuzzy (non-exact) branch of get_objs_with_key_or_alias
(no typeclass restriction) the partial matcher runs over the pool keys
first: when some key index matches, the result is exactly the key-selected
pool entities — nonempty, each drawn from the pool with a matching key.
Only when no key index matches is the matcher run over the alias rows of
the same candidate pool (the alias table restricted to the pool ids equals
the pool), and each returned entity then owns a matching alias; when
neither pass matches, the result is empty. -/
theorem c9_fuzzy_keys_first (ostring : String) (cands : Option (List Entity))
    (store : List Entity) (hnd : (store.map (fun e => e.id)).Nodup) :
    (fuzzyKeyIdx ostring cands none store ≠ [] →
       get_objs_with_key_or_alias ostring false cands none store =
         pickIdx (fuzzyPool ostring cands none store)
           (fuzzyKeyIdx ostring cands none store) ∧
       get_objs_with_key_or_alias ostring false cands none store ≠ [] ∧
       (∀ x ∈ get_objs_with_key_or_alias ostring false cands none store,
          x ∈ fuzzyPool ostring cands none store ∧
          tokensPrefMatch (tokens ostring) (tokens x.key) = true)) ∧
    (fuzzyKeyIdx ostring cands none store = [] →
       store.filter (fun e => (fuzzyPoolIds ostring cands none store).contains e.id) =
         fuzzyPool ostring cands none store ∧
       (∀ x ∈ get_objs_with_key_or_alias ostring false cands none store,
          x ∈ fuzzyPool ostring cands none store ∧
          ∃ a, (a, x) ∈ fuzzyRows ostring cands none store ∧
            tokensPrefMatch (tokens ostring) (tokens a) = true) ∧
       (fuzzyAliasIdx ostring cands none store = [] →
          get_objs_with_key_or_alias ostring false cands none store = [])) := by
  constructor
  · intro hk
    have hke : (!(fuzzyKeyIdx ostring cands none store).isEmpty) = true := by
      simpa [List.isEmpty_iff] using hk
    have hred : get_objs_with_key_or_alias ostring false cands none store =
        pickIdx (fuzzyPool ostring cands none store)
          (fuzzyKeyIdx ostring cands none store) := by
      rw [key_or_alias_fuzzy, if_pos hke]
    refine ⟨hred, ?_, ?_⟩
    · rw [hred]
      rcases List.exists_mem_of_ne_nil _ hk with ⟨i0, hi0⟩
      rcases spm_mem hi0 with ⟨l0, hg0, _⟩
      rcases List.get?_eq_some.mp hg0 with ⟨hlt0, _⟩
      rw [List.length_map] at hlt0
      exact pickIdx_ne_nil (contains_of_mem_nat hi0) hlt0
    · intro x hx
      rw [hred] at hx
      rcases pickIdx_mem_get hx with ⟨i, hci, hg⟩
      refine ⟨List.get?_mem hg, ?_⟩
      rcases spm_mem (mem_of_contains_nat hci) with ⟨l, hgl, hml⟩
      rw [List.get?_map, hg] at hgl
      simp only [Option.map_some'] at hgl
      injection hgl with hgl2
      rwa [hgl2]
  · intro hk
    have hpool := alias_pool_eq ostring cands store hnd
    refine ⟨hpool, ?_, ?_⟩
    · intro x hx
      rw [key_or_alias_fuzzy] at hx
      rw [hk] at hx
      simp only [List.isEmpty_nil, Bool.not_true, Bool.false_eq_true, if_false] at hx
      by_cases ha : (fuzzyAliasIdx ostring cands none store).isEmpty
      · rw [if_neg (by simp [ha])] at hx
        simp at hx
      · rw [if_pos (by simp [List.isEmpty_iff] at ha ⊢; exact ha)] at hx
        rcases List.mem_map.mp hx with ⟨r, hr, hrx⟩
        rcases pickIdx_mem_get hr with ⟨i, hci, hg⟩
        have hrrows : r ∈ fuzzyRows ostring cands none store := List.get?_mem hg
        have hrrows2 : r ∈ aliasRows (fuzzyPoolIds ostring cands none store) store := by
          unfold fuzzyRows at hrrows
          exact hrrows
        have howner := aliasRows_owner_subset hrrows2
        constructor
        · rw [← hpool]
          rw [← hrx]
          exact List.mem_filter.mpr ⟨howner.1, howner.2⟩
        · refine ⟨r.1, ?_, ?_⟩
          · rw [← hrx]
            exact hrrows
          · rcases spm_mem (mem_of_contains_nat hci) with ⟨l, hgl, hml⟩
            rw [List.get?_map, hg] at hgl
            simp only [Option.map_some'] at hgl
            injection hgl with hgl2
            rwa [hgl2]
    · intro ha
      rw [key_or_alias_fuzzy, hk, ha]
      simp

/-- Closed witness for C9: with candidate bladeEnt the multi-token query
matches the key and the key phase returns it; with the alias query the key
phase is empty and the alias phase returns the owner. -/
theorem c9_witness :
    (get_objs_with_key_or_alias "bi sw" false (some [bladeEnt]) none [bladeEnt] =
       pickIdx (fuzzyPool "bi sw" (some [bladeEnt]) none [bladeEnt])
         (fuzzyKeyIdx "bi sw" (some [bladeEnt]) none [bladeEnt]) ∧
     get_objs_with_key_or_alias "bi sw" false (some [bladeEnt]) none [bladeEnt] ≠ []) ∧
    (∀ x ∈ get_objs_with_key_or_alias "longb" false (some [bladeEnt]) none [bladeEnt],
       x ∈ fuzzyPool "longb" (some [bladeEnt]) none [bladeEnt] ∧
       ∃ a, (a, x) ∈ fuzzyRows "longb" (some [bladeEnt]) none [bladeEnt] ∧
         tokensPrefMatch (tokens "longb") (tokens a) = true) := by
  constructor
  · have h := (c9_fuzzy_keys_first "bi sw" (some [bladeEnt]) [bladeEnt] (by decide)).1
      (by decide)
    exact ⟨h.1, h.2.1⟩
  · exact ((c9_fuzzy_keys_first "longb" (some [bladeEnt]) [bladeEnt] (by decide)).2
      (by decide)).2.1
